import Mathlib

/-!
Verification of csv2md (package `csv2md`, file `csv2md.go`).

Shallow embedding of the CSV-to-GFM-table converter.  The Go code is
single-threaded and deterministic; state mutation (`t.wBytes`, the bytes
accepted by the sink) is made explicit by threading a `Transmogrifier`
value and a `SinkState` value through every operation.

External collaborators are modelled as the spec describes their
interfaces:
* the byte sink (`io.Writer`) is `write(bytes) -> (accepted_count, Error?)`,
  here a `Sink` whose behaviour may depend on the index of the write call;
* the CSV tokenizer is external, so the record stream handed to `MDTable`
  is a list of already-tokenized records (or read errors), and the format
  source handed to `SetFmt` is the result of the tokenizer's `ReadAll`.

Byte counts are measured in characters; every string the program itself
produces (markers, pipes, newline sequences) is ASCII, where the two
notions agree.
-/

namespace Csv2md

/-- Errors visible to the package.  `shortWrite` embeds the source type
`ShortWriteError` (csv2md.go:31-39); the record keeps its three fields
`n`, `written`, `operation`.  `noFormatData` is the `fmt.Errorf("no format
data found")` value of `SetFmt`.  `sinkE` and `csvE` carry errors
propagated from the byte sink resp. the CSV reader. -/
inductive Err where
  | sinkE (msg : String)
  | csvE (msg : String)
  | shortWrite (n written : Nat) (operation : String)
  | noFormatData
deriving Repr, DecidableEq

/-- The `Transmogrifier` struct (csv2md.go:42-59), minus the two external
handles `CSV` and `w`, which are passed explicitly to the operations that
use them.  `rBytes` is declared in the source and never touched. -/
structure Transmogrifier where
  hasHeaderRecord : Bool
  fieldNames : List String
  fieldAlignment : List String
  fieldFmt : List String
  newLine : String
  rBytes : Nat
  wBytes : Nat
deriving Repr, DecidableEq

/-- The byte sink: for the `k`-th write call with requested bytes `s`,
`behave k s` is the pair of the count the sink reports accepted and an
optional error — the spec's `write(bytes) -> (accepted_count, Error?)`. -/
structure Sink where
  behave : Nat → String → Nat × Option Err

/-- Observable sink history: number of write calls made so far and the
concatenation of all bytes the sink actually accepted. -/
structure SinkState where
  calls : Nat
  out : String
deriving Repr, DecidableEq

/-- Result of one run or sub-run: normal return of `nil`, return of an
error, or a Go runtime panic (reached by `writeRecord` when it indexes
`t.fieldFmt[i]` out of range). -/
inductive Outcome where
  | ok
  | error (e : Err)
  | panicked (msg : String)
deriving Repr, DecidableEq

/-- State after a run: the struct, the sink history, and the outcome. -/
structure StepOut where
  t : Transmogrifier
  st : SinkState
  res : Outcome
deriving Repr, DecidableEq

/-- First `n` characters of `s` (the bytes a partially-accepting sink
keeps). -/
def takeChars (s : String) (n : Nat) : String := ⟨s.data.take n⟩

/-- One `t.wBytes, err = t.w.Write([]byte(s))` statement: the sink reports
an accepted count and an optional error; the accepted prefix lands in the
sink, and `wBytes` is overwritten (not accumulated) with the reported
count. -/
def doWrite (sk : Sink) (t : Transmogrifier) (st : SinkState) (s : String) :
    Transmogrifier × SinkState × Option Err :=
  let r := sk.behave st.calls s
  ({ t with wBytes := r.1 },
   { calls := st.calls + 1, out := st.out ++ takeChars s r.1 },
   r.2)

/-- A sink that accepts every write in full and never errors. -/
def perfectSink : Sink := ⟨fun _ s => (s.length, none)⟩

/- Constants csv2md.go:21-29.  The source names the fourth one `none`;
here it is `noneSep` to avoid the `Option` constructor. -/

def left : String := ":--"
def centered : String := ":--:"
def right : String := "--:"
def noneSep : String := "---"
def italic : String := "_"
def bold : String := "__"
def strikethrough : String := "~~"

/-- `NewTransmogrifier` (csv2md.go:61-63): header record assumed, newline
defaults to two spaces + LF. -/
def NewTransmogrifier : Transmogrifier :=
  { hasHeaderRecord := true, fieldNames := [], fieldAlignment := [],
    fieldFmt := [], newLine := "  \n", rBytes := 0, wBytes := 0 }

/-- `SetFieldNames` (csv2md.go:100-103): appends `vals`. -/
def SetFieldNames (t : Transmogrifier) (vals : List String) : Transmogrifier :=
  { t with fieldNames := t.fieldNames ++ vals }

/-- `strings.ToLower` on the ASCII range (the Go function also lowercases
non-ASCII letters; every token the switches below distinguish is ASCII). -/
def toLowerGo (s : String) : String := ⟨s.data.map Char.toLower⟩

/-- `unicode.IsSpace` on the ASCII range: space, tab, newline, vertical
tab, form feed, carriage return. -/
def isSpaceGo (c : Char) : Bool :=
  c = ' ' || c = '\t' || c = '\n' || c = '\x0b' || c = '\x0c' || c = '\r'

/-- `strings.TrimSpace` on the ASCII range: drop leading and trailing
white space. -/
def trimSpaceGo (s : String) : String :=
  ⟨((s.data.dropWhile isSpaceGo).reverse.dropWhile isSpaceGo).reverse⟩

/-- One iteration of the `switch` in `SetFieldAlignment` (csv2md.go:106-118):
`v = strings.TrimSpace(strings.ToLower(v))`, then the four cases. -/
def alignToken (v0 : String) : String :=
  let v := trimSpaceGo (toLowerGo v0)
  if v = "l" ∨ v = "left" then left
  else if v = "c" ∨ v = "center" ∨ v = "centered" then centered
  else if v = "r" ∨ v = "right" then right
  else noneSep

/-- `SetFieldAlignment` (csv2md.go:105-120): appends the mapped tokens to
the existing `fieldAlignment`. -/
def SetFieldAlignment (t : Transmogrifier) (vals : List String) : Transmogrifier :=
  { t with fieldAlignment := t.fieldAlignment ++ vals.map alignToken }

/-- One iteration of the `switch` in `SetFieldFmt` (csv2md.go:123-135). -/
def fmtToken (v0 : String) : String :=
  let v := trimSpaceGo (toLowerGo v0)
  if v = "b" ∨ v = "bold" then bold
  else if v = "i" ∨ v = "italic" ∨ v = "italics" then italic
  else if v = "s" ∨ v = "strikethrough" then strikethrough
  else ""

/-- `SetFieldFmt` (csv2md.go:122-136): appends the mapped tokens to the
existing `fieldFmt`. -/
def SetFieldFmt (t : Transmogrifier) (vals : List String) : Transmogrifier :=
  { t with fieldFmt := t.fieldFmt ++ vals.map fmtToken }

/-- `SetFmt` (csv2md.go:144-172).  The argument is the outcome of the
external tokenizer's `ReadAll` over the format source: an error or the
full list of rows.  On a tokenizer error the error is returned unchanged;
zero rows yield the "no format data found" error; otherwise row 1
overwrites `fieldNames` (`make` + `copy`), row 2 — if present — goes
through `SetFieldAlignment`, row 3 — if present — through `SetFieldFmt`,
and later rows are never looked at. -/
def SetFmt (t : Transmogrifier) (readAll : Except Err (List (List String))) :
    Transmogrifier × Option Err :=
  match readAll with
  | Except.error e => (t, some e)
  | Except.ok [] => (t, some Err.noFormatData)
  | Except.ok (r0 :: rest) =>
    let t1 := { t with fieldNames := r0 }
    let t2 := match rest with
      | [] => t1
      | r1 :: _ => SetFieldAlignment t1 r1
    let t3 := match rest with
      | _ :: r2 :: _ => SetFieldFmt t2 r2
      | _ => t2
    (t3, none)

/-- The error-checked pipe-delimited loop of `writeHeaderRecord`
(csv2md.go:214-222, reused for the default separator row at 230-239):
each element gets a `|` appended while `i < end`, is written, and a write
error returns immediately. -/
def writeDelimited (sk : Sink) (endIdx : Nat) :
    List String → Nat → Transmogrifier → SinkState →
      Transmogrifier × SinkState × Option Err
  | [], _, t, st => (t, st, none)
  | f :: rest, i, t, st =>
    let f1 := if i < endIdx then f ++ "|" else f
    match doWrite sk t st f1 with
    | (t', st', some e) => (t', st', some e)
    | (t', st', none) => writeDelimited sk endIdx rest (i + 1) t' st'

/-- The alignment-separator loop of `writeHeaderRecord` (csv2md.go:244-249):
identical shape, but the source never tests `err` inside the loop — each
iteration overwrites it — and the value left after the loop is itself
overwritten by the newline write that follows, so only the states
survive. -/
def writeDelimitedNoCheck (sk : Sink) (endIdx : Nat) :
    List String → Nat → Transmogrifier → SinkState →
      Transmogrifier × SinkState
  | [], _, t, st => (t, st)
  | f :: rest, i, t, st =>
    let f1 := if i < endIdx then f ++ "|" else f
    match doWrite sk t st f1 with
    | (t', st', _) => writeDelimitedNoCheck sk endIdx rest (i + 1) t' st'

/-- `writeHeaderRecord` (csv2md.go:211-252): field names joined by `|`,
newline, then the separator row — all-`none` markers when no alignment
was set (the newline after that row is written but its error is dropped:
the source ends that branch with `return nil`), otherwise the alignment
tokens joined by `|` (errors inside that loop are dropped) and a final
newline whose error is returned. -/
def writeHeaderRecord (sk : Sink) (t : Transmogrifier) (st : SinkState)
    (fields : List String) : StepOut :=
  let endIdx := fields.length - 1
  match writeDelimited sk endIdx fields 0 t st with
  | (t, st, some e) => ⟨t, st, Outcome.error e⟩
  | (t, st, none) =>
    match doWrite sk t st t.newLine with
    | (t, st, some e) => ⟨t, st, Outcome.error e⟩
    | (t, st, none) =>
      if t.fieldAlignment.length = 0 then
        match writeDelimited sk endIdx (List.replicate fields.length noneSep) 0 t st with
        | (t, st, some e) => ⟨t, st, Outcome.error e⟩
        | (t, st, none) =>
          match doWrite sk t st t.newLine with
          | (t, st, _) => ⟨t, st, Outcome.ok⟩
      else
        let endIdx2 := t.fieldAlignment.length - 1
        match writeDelimitedNoCheck sk endIdx2 t.fieldAlignment 0 t st with
        | (t, st) =>
          match doWrite sk t st t.newLine with
          | (t, st, some e) => ⟨t, st, Outcome.error e⟩
          | (t, st, none) => ⟨t, st, Outcome.ok⟩

/-- The loop of `writeRecord` (csv2md.go:258-269) followed by the trailing
newline write (csv2md.go:270-271).  When `format` is set the field is
wrapped in `t.fieldFmt[i]` on both sides; an index at or past the end of
`fieldFmt` is the out-of-range access, embedded as the `panicked`
outcome.  Each write's error is checked; the newline write's error is
returned. -/
def writeRecordGo (sk : Sink) (format : Bool) (endIdx : Nat) :
    List String → Nat → Transmogrifier → SinkState → StepOut
  | [], _, t, st =>
    match doWrite sk t st t.newLine with
    | (t, st, some e) => ⟨t, st, Outcome.error e⟩
    | (t, st, none) => ⟨t, st, Outcome.ok⟩
  | f :: rest, i, t, st =>
    if format then
      match t.fieldFmt[i]? with
      | none => ⟨t, st, Outcome.panicked "index out of range"⟩
      | some fv =>
        let f1 := if i < endIdx then fv ++ f ++ fv ++ "|" else fv ++ f ++ fv
        match doWrite sk t st f1 with
        | (t, st, some e) => ⟨t, st, Outcome.error e⟩
        | (t, st, none) => writeRecordGo sk format endIdx rest (i + 1) t st
    else
      let f1 := if i < endIdx then f ++ "|" else f
      match doWrite sk t st f1 with
      | (t, st, some e) => ⟨t, st, Outcome.error e⟩
      | (t, st, none) => writeRecordGo sk format endIdx rest (i + 1) t st

/-- `writeRecord` (csv2md.go:254-272): `format := len(t.fieldFmt) > 0`,
`end := len(fields) - 1`, then the loop. -/
def writeRecord (sk : Sink) (t : Transmogrifier) (st : SinkState)
    (fields : List String) : StepOut :=
  writeRecordGo sk (decide (0 < t.fieldFmt.length)) (fields.length - 1) fields 0 t st

/-- The read/emit loop of `MDTable` (csv2md.go:183-207).  The record
stream is the sequence of `t.CSV.Read()` results: a record or a read
error; the end of the list is `io.EOF`, which breaks the loop with `nil`.
`row` is incremented before each read; for the first record with
`HasHeaderRecord` set, a non-empty name schema discards the record,
otherwise the record itself becomes the header; every other record is
written as a data row. -/
def mdLoop (sk : Sink) :
    List (Except Err (List String)) → Nat → Transmogrifier → SinkState → StepOut
  | [], _, t, st => ⟨t, st, Outcome.ok⟩
  | r :: rest, row0, t, st =>
    let row := row0 + 1
    match r with
    | Except.error e => ⟨t, st, Outcome.error e⟩
    | Except.ok record =>
      if row = 1 ∧ t.hasHeaderRecord = true then
        if 0 < t.fieldNames.length then
          mdLoop sk rest row t st
        else
          let h := writeHeaderRecord sk t st record
          match h.res with
          | Outcome.ok => mdLoop sk rest row h.t h.st
          | _ => h
      else
        let o := writeRecord sk t st record
        match o.res with
        | Outcome.ok => mdLoop sk rest row o.t o.st
        | _ => o

/-- `MDTable` (csv2md.go:174-209): a non-empty name schema is written as
the header block before anything is read, then the loop runs from
`row = 0`. -/
def MDTable (sk : Sink) (recs : List (Except Err (List String)))
    (t : Transmogrifier) (st : SinkState) : StepOut :=
  if 0 < t.fieldNames.length then
    let h := writeHeaderRecord sk t st t.fieldNames
    match h.res with
    | Outcome.ok => mdLoop sk recs 0 h.t h.st
    | _ => h
  else
    mdLoop sk recs 0 t st

/- Spec-side description functions, used only on the right-hand side of
theorems (never by the embedding itself). -/

/-- Fields joined by the literal pipe character. -/
def joinPipes : List String → String
  | [] => ""
  | [f] => f
  | f :: g :: rest => f ++ "|" ++ joinPipes (g :: rest)

/-- What the loop writes, write by write: element `i` gets a pipe while
`i < endIdx`. -/
def pipeJoinAux (endIdx : Nat) : List String → Nat → String
  | [], _ => ""
  | f :: rest, i =>
    (if i < endIdx then f ++ "|" else f) ++ pipeJoinAux endIdx rest (i + 1)

/-- A header block: names row, then the separator row — the alignment
tokens when an alignment schema is set, else one `none` marker per
name. -/
def headerBlock (fields align : List String) (nl : String) : String :=
  joinPipes fields ++ nl ++
    (if align = [] then joinPipes (List.replicate fields.length noneSep)
     else joinPipes align) ++ nl

/-- Data rows rendered verbatim: each record pipe-joined and newline
terminated. -/
def dataRows : List (List String) → String → String
  | [], _ => ""
  | r :: rest, nl => joinPipes r ++ nl ++ dataRows rest nl

/-- Modelled from the spec (§4.2 state machine): the residual run after
all header handling — each remaining record goes through `writeRecord`,
stopping at the first outcome that is not a normal return. -/
def runDataRows (sk : Sink) : List (List String) → Transmogrifier → SinkState → StepOut
  | [], t, st => ⟨t, st, Outcome.ok⟩
  | r :: rest, t, st =>
    let o := writeRecord sk t st r
    match o.res with
    | Outcome.ok => runDataRows sk rest o.t o.st
    | _ => o

/-- The full emitted text of a successful run: header block as routed by
the name schema and `hasHeaderRecord`, then the data rows. -/
def expectedOutput (t : Transmogrifier) (records : List (List String)) : String :=
  if t.fieldNames = [] then
    if t.hasHeaderRecord = true then
      match records with
      | [] => ""
      | r :: rest => headerBlock r t.fieldAlignment t.newLine ++ dataRows rest t.newLine
    else dataRows records t.newLine
  else
    headerBlock t.fieldNames t.fieldAlignment t.newLine ++
      dataRows (if t.hasHeaderRecord = true then records.drop 1 else records) t.newLine

/- Concrete fixtures for the closed theorems. -/

/-- Fresh sink history. -/
def st0 : SinkState := ⟨0, ""⟩

/-- Default struct with `HasHeaderRecord` switched off. -/
def tNoHeader : Transmogrifier := { NewTransmogrifier with hasHeaderRecord := false }

/-- Names set (one column), no alignment, no styles, no header record. -/
def tNamesOnly : Transmogrifier := { tNoHeader with fieldNames := ["a"] }

/-- Alignment set through `SetFieldAlignment` while the name schema stays
empty. -/
def tAlignOnly : Transmogrifier := SetFieldAlignment NewTransmogrifier ["l"]

/-- One style entry, header record assumed. -/
def tOneStyle : Transmogrifier := { NewTransmogrifier with fieldFmt := ["_"] }

/-- A sink that accepts zero of the requested bytes on the first call —
reporting it truthfully, with no error — and everything afterwards. -/
def shortSink : Sink :=
  ⟨fun k s => match k with
    | 0 => (0, none)
    | _ => (s.length, none)⟩

/-- A sink that fails the fourth write call (index 3) and accepts
everything else. -/
def failAt3Sink : Sink :=
  ⟨fun k s => match k with
    | 3 => (0, some (Err.sinkE "disk full"))
    | _ => (s.length, none)⟩

/-- A three-row format source: names, alignment tokens, style tokens. -/
def fmtRows : Except Err (List (List String)) := Except.ok [["a"], ["l"], ["b"]]

/-- The worked data of spec §8: header record plus two car records. -/
def carRecords : List (List String) :=
  [["Manufacturer", "Model", "Type", "Year"],
   ["Ford", "Focus", "Sedan", "2015"],
   ["Chevy", "Malibu", "Sedan", "2015"]]

end Csv2md

namespace Csv2md

/- ### Claim theorems: format resolution (C4, C5, C6, C8) -/

/-- C4: on the code, the literal markers are NOT mapped to their
alignments — the `switch` in `SetFieldAlignment` has no case for `:--`,
`:--:` or `--:`, so each falls to the `default` branch and resolves to
the `none` marker `---`, contradicting the claimed equivalence classes
(and the valid-value tables in `cmd/csv2md/README.md`). -/
theorem setFieldAlignment_literal_markers_to_none :
    (SetFieldAlignment NewTransmogrifier [":--", ":--:", "--:"]).fieldAlignment
      = ["---", "---", "---"] ∧
    (SetFieldAlignment NewTransmogrifier [":--", ":--:", "--:"]).fieldAlignment
      ≠ [":--", ":--:", "--:"] := by decide

/-- C5: on the code, the literal style markers are NOT mapped to their
styles — the `switch` in `SetFieldFmt` has no case for `__`, `_` or `~~`,
so each falls to the `default` branch and resolves to no style (the empty
string), contradicting the claimed equivalence classes (and the
valid-value tables in `cmd/csv2md/README.md`). -/
theorem setFieldFmt_literal_markers_to_nostyle :
    (SetFieldFmt NewTransmogrifier ["__", "_", "~~"]).fieldFmt = ["", "", ""] ∧
    (SetFieldFmt NewTransmogrifier ["__", "_", "~~"]).fieldFmt ≠ ["__", "_", "~~"] := by
  decide

/-- C6: `SetFmt` propagates a tokenizer error unchanged; returns the
no-format-data error exactly on a successfully parsed empty row list (on
any non-empty row list it succeeds); row 1 overwrites the field names;
row 2 — if present — supplies the alignment tokens and row 3 — if
present — the style tokens (appended through the two setters); and
every row beyond the third is ignored. -/
theorem setFmt_spec (t : Transmogrifier) :
    (∀ e, SetFmt t (Except.error e) = (t, some e)) ∧
    (SetFmt t (Except.ok []) = (t, some Err.noFormatData)) ∧
    (∀ r0 more,
      (SetFmt t (Except.ok (r0 :: more))).2 = none ∧
      (SetFmt t (Except.ok (r0 :: more))).1.fieldNames = r0 ∧
      (SetFmt t (Except.ok (r0 :: more))).1.fieldAlignment
        = t.fieldAlignment ++ (more.head?.getD []).map alignToken ∧
      (SetFmt t (Except.ok (r0 :: more))).1.fieldFmt
        = t.fieldFmt ++ ((more.drop 1).head?.getD []).map fmtToken) ∧
    (∀ r0 r1 r2 extra,
      SetFmt t (Except.ok (r0 :: r1 :: r2 :: extra)) = SetFmt t (Except.ok [r0, r1, r2])) := by
  refine ⟨fun e => rfl, rfl, fun r0 more => ?_, fun r0 r1 r2 extra => rfl⟩
  rcases more with _ | ⟨r1, _ | ⟨r2, rest⟩⟩ <;>
    simp [SetFmt, SetFieldAlignment, SetFieldFmt]

/-- C8 counterexample: `SetFmt` is not idempotent.  With the three-row
format source `[["a"], ["l"], ["b"]]`, a second call on the state left by
the first call keeps the names but appends a second copy of the mapped
alignment (and style) tokens, so the resolved schema differs from the
state after a single call. -/
theorem setFmt_not_idempotent :
    ((SetFmt (SetFmt NewTransmogrifier fmtRows).1 fmtRows).1).fieldAlignment
      ≠ ((SetFmt NewTransmogrifier fmtRows).1).fieldAlignment ∧
    ((SetFmt (SetFmt NewTransmogrifier fmtRows).1 fmtRows).1).fieldAlignment
      = [":--", ":--"] ∧
    ((SetFmt NewTransmogrifier fmtRows).1).fieldAlignment = [":--"] ∧
    ((SetFmt (SetFmt NewTransmogrifier fmtRows).1 fmtRows).1).fieldFmt = ["__", "__"] ∧
    ((SetFmt NewTransmogrifier fmtRows).1).fieldFmt = ["__"] := by decide

/-- C8 (amended): a second `SetFmt` call with the same rows overwrites
the name array — the names are unchanged — but appends the mapped row-2
alignment tokens and row-3 style tokens to the arrays left by the first
call instead of overwriting them. -/
theorem setFmt_second_call (t : Transmogrifier) (r0 : List String)
    (more : List (List String)) :
    ((SetFmt (SetFmt t (Except.ok (r0 :: more))).1 (Except.ok (r0 :: more))).1).fieldNames
      = ((SetFmt t (Except.ok (r0 :: more))).1).fieldNames ∧
    ((SetFmt (SetFmt t (Except.ok (r0 :: more))).1 (Except.ok (r0 :: more))).1).fieldAlignment
      = ((SetFmt t (Except.ok (r0 :: more))).1).fieldAlignment
          ++ (more.head?.getD []).map alignToken ∧
    ((SetFmt (SetFmt t (Except.ok (r0 :: more))).1 (Except.ok (r0 :: more))).1).fieldFmt
      = ((SetFmt t (Except.ok (r0 :: more))).1).fieldFmt
          ++ ((more.drop 1).head?.getD []).map fmtToken := by
  rcases more with _ | ⟨r1, _ | ⟨r2, rest⟩⟩ <;>
    simp [SetFmt, SetFieldAlignment, SetFieldFmt]

/- ### Claim theorems: the write contract (C1, C2, C9) -/

/-- C1: a short write is not detected.  `shortSink` truthfully reports
accepting 0 of the 2 requested bytes of the first logical write (the
data field `a|`) and returns no error; the run neither aborts nor
produces a `ShortWriteError` — it continues, writes the remaining field
and the newline into the sink, and returns success.  (`ShortWriteError`
is defined at csv2md.go:31-39 but no code path constructs it: the result
count of `t.w.Write` is assigned to `wBytes` and never compared to the
requested length.) -/
theorem mdtable_short_write_undetected :
    (MDTable shortSink [Except.ok ["a", "b"]] tNoHeader st0).res = Outcome.ok ∧
    (MDTable shortSink [Except.ok ["a", "b"]] tNoHeader st0).st.out = "b  \n" := by decide

/-- C2: a sink error is silently swallowed.  With field names `["a"]` and
no alignment schema, the fourth write of the header block is the newline
that terminates the all-`---` separator row; `failAt3Sink` fails exactly
that write, yet the run returns success, because `writeHeaderRecord` ends
that branch with `return nil` (csv2md.go:240-241) after assigning the
error. -/
theorem mdtable_swallows_separator_newline_error :
    (MDTable failAt3Sink [] tNamesOnly st0).res = Outcome.ok ∧
    (MDTable failAt3Sink [] tNamesOnly st0).st.out = "a  \n---" := by decide

/-- C9 counterexample: the bytes-written counter does not accumulate.
A run that writes `abcd` and then the three-character newline has
delivered 7 bytes to the sink in total, but `wBytes` holds 3 — only the
count of the last write. -/
theorem wBytes_not_accumulated :
    (MDTable perfectSink [Except.ok ["abcd"]] tNoHeader st0).t.wBytes = 3 ∧
    (MDTable perfectSink [Except.ok ["abcd"]] tNoHeader st0).st.out.length = 7 ∧
    (MDTable perfectSink [Except.ok ["abcd"]] tNoHeader st0).t.wBytes ≠ 7 := by decide

/-- C9 (amended): every write overwrites `wBytes` with the count the sink
reported for that single write; the previous value of the counter has no
effect on the result, so after each write the counter holds the last
write's accepted count, not a running total. -/
theorem wBytes_last_write_only (sk : Sink) (t : Transmogrifier) (st : SinkState)
    (s : String) :
    (doWrite sk t st s).1.wBytes = (sk.behave st.calls s).1 ∧
    (∀ n, doWrite sk { t with wBytes := n } st s = doWrite sk t st s) := by
  exact ⟨rfl, fun n => rfl⟩

end Csv2md

namespace Csv2md

/- ### Internal lemmas: single writes -/

theorem takeChars_length (s : String) : takeChars s s.length = s := by
  cases s with
  | mk d => simp [takeChars, String.length]

theorem doWrite_perfect (t : Transmogrifier) (st : SinkState) (s : String) :
    doWrite perfectSink t st s
      = ({ t with wBytes := s.length }, ⟨st.calls + 1, st.out ++ s⟩, none) := by
  simp [doWrite, perfectSink, takeChars_length]

/- ### Internal lemmas: pipe-joined rows -/

theorem pipeJoinAux_shift (rest : List String) :
    ∀ (f : String) (i : Nat),
      pipeJoinAux (i + rest.length) (f :: rest) i = joinPipes (f :: rest) := by
  induction rest with
  | nil =>
    intro f i
    simp [pipeJoinAux, joinPipes]
  | cons g rest' ih =>
    intro f i
    have h1 : i < i + (g :: rest').length := by simp
    have h2 : i + (g :: rest').length = (i + 1) + rest'.length := by
      simp [List.length_cons]; omega
    have h3 := ih g (i + 1)
    simp only [pipeJoinAux] at h3 ⊢
    rw [if_pos h1, h2, h3]
    simp [joinPipes, String.append_assoc]

theorem pipeJoinAux_eq_joinPipes (L : List String) :
    pipeJoinAux (L.length - 1) L 0 = joinPipes L := by
  cases L with
  | nil => rfl
  | cons f rest =>
    have h := pipeJoinAux_shift rest f 0
    simpa using h

end Csv2md

namespace Csv2md

/- ### Internal lemmas: the header loops under a fully-accepting sink -/

theorem writeDelimited_perfect (endIdx : Nat) (fields : List String) :
    ∀ (i : Nat) (t : Transmogrifier) (st : SinkState),
      ∃ w c, writeDelimited perfectSink endIdx fields i t st
        = ({ t with wBytes := w }, ⟨c, st.out ++ pipeJoinAux endIdx fields i⟩, none) := by
  induction fields with
  | nil =>
    intro i t st
    exact ⟨t.wBytes, st.calls, by simp [writeDelimited, pipeJoinAux]⟩
  | cons f rest ih =>
    intro i t st
    obtain ⟨w, c, hw⟩ := ih (i + 1)
      { t with wBytes := (if i < endIdx then f ++ "|" else f).length }
      ⟨st.calls + 1, st.out ++ (if i < endIdx then f ++ "|" else f)⟩
    refine ⟨w, c, ?_⟩
    simp only [writeDelimited, doWrite_perfect]
    rw [hw]
    simp [pipeJoinAux, String.append_assoc]

theorem writeDelimitedNoCheck_perfect (endIdx : Nat) (fields : List String) :
    ∀ (i : Nat) (t : Transmogrifier) (st : SinkState),
      ∃ w c, writeDelimitedNoCheck perfectSink endIdx fields i t st
        = ({ t with wBytes := w }, ⟨c, st.out ++ pipeJoinAux endIdx fields i⟩) := by
  induction fields with
  | nil =>
    intro i t st
    exact ⟨t.wBytes, st.calls, by simp [writeDelimitedNoCheck, pipeJoinAux]⟩
  | cons f rest ih =>
    intro i t st
    obtain ⟨w, c, hw⟩ := ih (i + 1)
      { t with wBytes := (if i < endIdx then f ++ "|" else f).length }
      ⟨st.calls + 1, st.out ++ (if i < endIdx then f ++ "|" else f)⟩
    refine ⟨w, c, ?_⟩
    simp only [writeDelimitedNoCheck, doWrite_perfect]
    rw [hw]
    simp [pipeJoinAux, String.append_assoc]

end Csv2md

namespace Csv2md

/- ### Internal lemma: a header block under a fully-accepting sink -/

theorem writeHeaderRecord_perfect (t : Transmogrifier) (st : SinkState)
    (fields : List String) :
    ∃ w c, writeHeaderRecord perfectSink t st fields
      = ⟨{ t with wBytes := w },
         ⟨c, st.out ++ headerBlock fields t.fieldAlignment t.newLine⟩, Outcome.ok⟩ := by
  obtain ⟨w1, c1, h1⟩ := writeDelimited_perfect (fields.length - 1) fields 0 t st
  by_cases halign : t.fieldAlignment = []
  · obtain ⟨w2, c2, h2⟩ := writeDelimited_perfect (fields.length - 1)
      (List.replicate fields.length noneSep) 0
      { t with wBytes := t.newLine.length }
      ⟨c1 + 1, st.out ++ pipeJoinAux (fields.length - 1) fields 0 ++ t.newLine⟩
    refine ⟨t.newLine.length, c2 + 1, ?_⟩
    simp only [writeHeaderRecord, h1, doWrite_perfect]
    simp only [h2]
    rw [if_pos (by simp [halign])]
    have hP := pipeJoinAux_eq_joinPipes fields
    have hS := pipeJoinAux_eq_joinPipes (List.replicate fields.length noneSep)
    rw [List.length_replicate] at hS
    simp [headerBlock, halign, hP, hS, String.append_assoc]
  · obtain ⟨w2, c2, h2⟩ := writeDelimitedNoCheck_perfect (t.fieldAlignment.length - 1)
      t.fieldAlignment 0
      { t with wBytes := t.newLine.length }
      ⟨c1 + 1, st.out ++ pipeJoinAux (fields.length - 1) fields 0 ++ t.newLine⟩
    refine ⟨t.newLine.length, c2 + 1, ?_⟩
    simp only [writeHeaderRecord, h1, doWrite_perfect]
    rw [if_neg (by simp [halign])]
    simp only [h2, doWrite_perfect]
    have hP := pipeJoinAux_eq_joinPipes fields
    have hA := pipeJoinAux_eq_joinPipes t.fieldAlignment
    simp [headerBlock, halign, hP, hA, String.append_assoc]

end Csv2md

namespace Csv2md

/- ### Internal lemmas: data rows under a fully-accepting sink, no styles -/

theorem writeRecordGo_perfect_false (endIdx : Nat) (fields : List String) :
    ∀ (i : Nat) (t : Transmogrifier) (st : SinkState),
      ∃ w c, writeRecordGo perfectSink false endIdx fields i t st
        = ⟨{ t with wBytes := w },
           ⟨c, st.out ++ (pipeJoinAux endIdx fields i ++ t.newLine)⟩, Outcome.ok⟩ := by
  induction fields with
  | nil =>
    intro i t st
    refine ⟨t.newLine.length, st.calls + 1, ?_⟩
    simp [writeRecordGo, doWrite_perfect, pipeJoinAux]
  | cons f rest ih =>
    intro i t st
    obtain ⟨w, c, hw⟩ := ih (i + 1)
      { t with wBytes := (if i < endIdx then f ++ "|" else f).length }
      ⟨st.calls + 1, st.out ++ (if i < endIdx then f ++ "|" else f)⟩
    refine ⟨w, c, ?_⟩
    simp only [writeRecordGo, Bool.false_eq_true, if_false, doWrite_perfect]
    rw [hw]
    simp [pipeJoinAux, String.append_assoc]

theorem writeRecord_perfect_nofmt (t : Transmogrifier) (st : SinkState)
    (fields : List String) (h : t.fieldFmt = []) :
    ∃ w c, writeRecord perfectSink t st fields
      = ⟨{ t with wBytes := w },
         ⟨c, st.out ++ (joinPipes fields ++ t.newLine)⟩, Outcome.ok⟩ := by
  obtain ⟨w, c, hw⟩ := writeRecordGo_perfect_false (fields.length - 1) fields 0 t st
  refine ⟨w, c, ?_⟩
  rw [writeRecord, show (decide (0 < t.fieldFmt.length)) = false by simp [h]]
  rw [hw, pipeJoinAux_eq_joinPipes]

theorem runDataRows_perfect (records : List (List String)) :
    ∀ (t : Transmogrifier) (st : SinkState), t.fieldFmt = [] →
      ∃ w c, runDataRows perfectSink records t st
        = ⟨{ t with wBytes := w },
           ⟨c, st.out ++ dataRows records t.newLine⟩, Outcome.ok⟩ := by
  induction records with
  | nil =>
    intro t st _
    exact ⟨t.wBytes, st.calls, by simp [runDataRows, dataRows]⟩
  | cons r rest ih =>
    intro t st hfmt
    obtain ⟨w1, c1, h1⟩ := writeRecord_perfect_nofmt t st r hfmt
    obtain ⟨w2, c2, h2⟩ := ih { t with wBytes := w1 }
      ⟨c1, st.out ++ (joinPipes r ++ t.newLine)⟩ (by simpa using hfmt)
    refine ⟨w2, c2, ?_⟩
    simp only [runDataRows, h1]
    rw [h2]
    simp [dataRows, String.append_assoc]

end Csv2md

namespace Csv2md

/- ### Internal lemmas: every writer only ever touches `wBytes` -/

theorem writeDelimited_t_shape (sk : Sink) (endIdx : Nat) (fields : List String) :
    ∀ (i : Nat) (t : Transmogrifier) (st : SinkState),
      ∃ w, (writeDelimited sk endIdx fields i t st).1 = { t with wBytes := w } := by
  induction fields with
  | nil => intro i t st; exact ⟨t.wBytes, rfl⟩
  | cons f rest ih =>
    intro i t st
    simp only [writeDelimited, doWrite]
    rcases hbe : sk.behave st.calls (if i < endIdx then f ++ "|" else f) with ⟨n0, e0⟩
    cases e0 with
    | none =>
      dsimp only
      obtain ⟨w, hw⟩ := ih (i + 1) { t with wBytes := n0 }
        ⟨st.calls + 1, st.out ++ takeChars (if i < endIdx then f ++ "|" else f) n0⟩
      exact ⟨w, hw⟩
    | some e => exact ⟨n0, rfl⟩

theorem writeDelimitedNoCheck_t_shape (sk : Sink) (endIdx : Nat) (fields : List String) :
    ∀ (i : Nat) (t : Transmogrifier) (st : SinkState),
      ∃ w, (writeDelimitedNoCheck sk endIdx fields i t st).1 = { t with wBytes := w } := by
  induction fields with
  | nil => intro i t st; exact ⟨t.wBytes, rfl⟩
  | cons f rest ih =>
    intro i t st
    simp only [writeDelimitedNoCheck, doWrite]
    rcases hbe : sk.behave st.calls (if i < endIdx then f ++ "|" else f) with ⟨n0, e0⟩
    dsimp only
    obtain ⟨w, hw⟩ := ih (i + 1) { t with wBytes := n0 }
      ⟨st.calls + 1, st.out ++ takeChars (if i < endIdx then f ++ "|" else f) n0⟩
    exact ⟨w, hw⟩

end Csv2md

namespace Csv2md

theorem doWrite_eq (sk : Sink) (t : Transmogrifier) (st : SinkState) (s : String) :
    doWrite sk t st s
      = ({ t with wBytes := (sk.behave st.calls s).1 },
         ⟨st.calls + 1, st.out ++ takeChars s (sk.behave st.calls s).1⟩,
         (sk.behave st.calls s).2) := rfl

theorem writeHeaderRecord_t_shape (sk : Sink) (t : Transmogrifier) (st : SinkState)
    (fields : List String) :
    ∃ w, (writeHeaderRecord sk t st fields).t = { t with wBytes := w } := by
  obtain ⟨w1, h1⟩ := writeDelimited_t_shape sk (fields.length - 1) fields 0 t st
  rcases hd : writeDelimited sk (fields.length - 1) fields 0 t st with ⟨t1, st1, e1⟩
  rw [hd] at h1
  simp only at h1
  cases e1 with
  | some e => exact ⟨w1, by simp only [writeHeaderRecord, hd]; exact h1⟩
  | none =>
    rcases hb2 : sk.behave st1.calls t1.newLine with ⟨n2, e2⟩
    cases e2 with
    | some e =>
      refine ⟨n2, ?_⟩
      simp only [writeHeaderRecord, hd, doWrite_eq, hb2]
      rw [h1]
    | none =>
      by_cases halign : t1.fieldAlignment.length = 0
      · obtain ⟨w3, h3⟩ := writeDelimited_t_shape sk (fields.length - 1)
          (List.replicate fields.length noneSep) 0 { t1 with wBytes := n2 }
          ⟨st1.calls + 1, st1.out ++ takeChars t1.newLine n2⟩
        rcases hd3 : writeDelimited sk (fields.length - 1)
            (List.replicate fields.length noneSep) 0 { t1 with wBytes := n2 }
            ⟨st1.calls + 1, st1.out ++ takeChars t1.newLine n2⟩ with ⟨t3, st3, e3⟩
        rw [hd3] at h3
        simp only at h3
        have halign2 : ({ t1 with wBytes := n2 } : Transmogrifier).fieldAlignment.length = 0 :=
          halign
        cases e3 with
        | some e =>
          refine ⟨w3, ?_⟩
          simp only [writeHeaderRecord, hd, doWrite_eq, hb2, if_pos halign2, hd3]
          rw [h3, h1]
        | none =>
          refine ⟨(sk.behave st3.calls t3.newLine).1, ?_⟩
          simp only [writeHeaderRecord, hd, doWrite_eq, hb2, if_pos halign2, hd3]
          rw [h3, h1]
      · obtain ⟨w3, h3⟩ := writeDelimitedNoCheck_t_shape sk
          (t1.fieldAlignment.length - 1) t1.fieldAlignment 0 { t1 with wBytes := n2 }
          ⟨st1.calls + 1, st1.out ++ takeChars t1.newLine n2⟩
        rcases hd3 : writeDelimitedNoCheck sk
            (t1.fieldAlignment.length - 1) t1.fieldAlignment 0 { t1 with wBytes := n2 }
            ⟨st1.calls + 1, st1.out ++ takeChars t1.newLine n2⟩ with ⟨t3, st3⟩
        rw [hd3] at h3
        simp only at h3
        have halign2 : ¬({ t1 with wBytes := n2 } : Transmogrifier).fieldAlignment.length = 0 :=
          halign
        rcases hb4 : sk.behave st3.calls t3.newLine with ⟨n4, e4⟩
        cases e4 with
        | some e =>
          refine ⟨n4, ?_⟩
          simp only [writeHeaderRecord, hd, doWrite_eq, hb2, if_neg halign2, hd3, hb4]
          rw [h3, h1]
        | none =>
          refine ⟨n4, ?_⟩
          simp only [writeHeaderRecord, hd, doWrite_eq, hb2, if_neg halign2, hd3, hb4]
          rw [h3, h1]

end Csv2md

namespace Csv2md

/- ### Internal lemma: past the first row, the loop is pure data emission -/

theorem mdLoop_eq_runDataRows (sk : Sink) (records : List (List String)) :
    ∀ (row0 : Nat) (t : Transmogrifier) (st : SinkState),
      1 ≤ row0 ∨ t.hasHeaderRecord = false →
      mdLoop sk (records.map Except.ok) row0 t st = runDataRows sk records t st := by
  induction records with
  | nil => intro row0 t st _; rfl
  | cons r rest ih =>
    intro row0 t st h
    have hcond : ¬(row0 + 1 = 1 ∧ t.hasHeaderRecord = true) := by
      rcases h with h | h
      · intro hc; omega
      · intro hc; rw [h] at hc; exact absurd hc.2 (by simp)
    simp only [List.map, mdLoop, runDataRows, if_neg hcond]
    cases hres : (writeRecord sk t st r).res with
    | ok => simpa using ih (row0 + 1) _ _ (Or.inl (by omega))
    | error e => simp
    | panicked msg => simp

end Csv2md

namespace Csv2md

end Csv2md

namespace Csv2md

/-- C7 (amended): routing and emission of `MDTable`.  First conjunct, for
every sink: a non-empty name schema is emitted as a header block before
any record is handled, after which — when `HasHeaderRecord` is set — the
first record is discarded; when the name schema is empty and
`HasHeaderRecord` is set, the first record itself becomes the header
block (and is not emitted as a data row); every remaining record is
emitted as a data row.  Second conjunct: under a fully-accepting sink and
no style schema, the emitted bytes are exactly the header block — whose
separator row is the alignment row when an alignment schema is set and
the all-`---` row otherwise — followed by the remaining records rendered
as data rows. -/
theorem mdtable_emission (t : Transmogrifier) (st : SinkState)
    (records : List (List String)) :
    (∀ sk : Sink,
      MDTable sk (records.map Except.ok) t st =
        if t.fieldNames = [] then
          if t.hasHeaderRecord = true then
            match records with
            | [] => ⟨t, st, Outcome.ok⟩
            | r :: rest =>
              let h := writeHeaderRecord sk t st r
              match h.res with
              | Outcome.ok => runDataRows sk rest h.t h.st
              | _ => h
          else runDataRows sk records t st
        else
          let h := writeHeaderRecord sk t st t.fieldNames
          match h.res with
          | Outcome.ok =>
              runDataRows sk
                (if t.hasHeaderRecord = true then records.drop 1 else records) h.t h.st
          | _ => h) ∧
    (t.fieldFmt = [] →
      (MDTable perfectSink (records.map Except.ok) t st).res = Outcome.ok ∧
      (MDTable perfectSink (records.map Except.ok) t st).st.out
        = st.out ++ expectedOutput t records) := by
  have hroute : ∀ sk : Sink,
      MDTable sk (records.map Except.ok) t st =
        if t.fieldNames = [] then
          if t.hasHeaderRecord = true then
            match records with
            | [] => ⟨t, st, Outcome.ok⟩
            | r :: rest =>
              let h := writeHeaderRecord sk t st r
              match h.res with
              | Outcome.ok => runDataRows sk rest h.t h.st
              | _ => h
          else runDataRows sk records t st
        else
          let h := writeHeaderRecord sk t st t.fieldNames
          match h.res with
          | Outcome.ok =>
              runDataRows sk
                (if t.hasHeaderRecord = true then records.drop 1 else records) h.t h.st
          | _ => h := by
    intro sk
    by_cases hnames : t.fieldNames = []
    · have hlen : ¬0 < t.fieldNames.length := by simp [hnames]
      simp only [MDTable, if_neg hlen, if_pos hnames]
      by_cases hH : t.hasHeaderRecord = true
      · rw [if_pos hH]
        cases records with
        | nil => rfl
        | cons r rest =>
          simp only [List.map, mdLoop]
          rw [if_pos ⟨trivial, hH⟩, if_neg hlen]
          cases hres : (writeHeaderRecord sk t st r).res with
          | ok =>
            dsimp only
            simpa using mdLoop_eq_runDataRows sk rest 1 _ _ (Or.inl le_rfl)
          | error e => simp
          | panicked m => simp
      · have hH2 : t.hasHeaderRecord = false := by
          revert hH; cases t.hasHeaderRecord <;> simp
        rw [if_neg hH]
        exact mdLoop_eq_runDataRows sk records 0 t st (Or.inr hH2)
    · have hlen : 0 < t.fieldNames.length := List.length_pos.mpr hnames
      simp only [MDTable, if_pos hlen, if_neg hnames]
      obtain ⟨w, hw⟩ := writeHeaderRecord_t_shape sk t st t.fieldNames
      cases hres : (writeHeaderRecord sk t st t.fieldNames).res with
      | error e => simp
      | panicked m => simp
      | ok =>
        dsimp only
        rw [hw]
        by_cases hH : t.hasHeaderRecord = true
        · rw [if_pos hH]
          cases records with
          | nil => rfl
          | cons r rest =>
            simp only [List.map, mdLoop]
            rw [if_pos ⟨trivial, hH⟩, if_pos hlen]
            simpa using mdLoop_eq_runDataRows sk rest 1 _ _ (Or.inl le_rfl)
        · have hH2 : t.hasHeaderRecord = false := by
            revert hH; cases t.hasHeaderRecord <;> simp
          rw [if_neg hH]
          exact mdLoop_eq_runDataRows sk records 0 _ _ (Or.inr (by simpa using hH2))
  constructor
  · exact hroute
  · intro hfmt
    rw [hroute perfectSink]
    by_cases hnames : t.fieldNames = []
    · rw [if_pos hnames]
      by_cases hH : t.hasHeaderRecord = true
      · rw [if_pos hH]
        cases records with
        | nil => exact ⟨rfl, by simp [expectedOutput, hnames, hH]⟩
        | cons r rest =>
          obtain ⟨w1, c1, h1⟩ := writeHeaderRecord_perfect t st r
          obtain ⟨w2, c2, h2⟩ := runDataRows_perfect rest { t with wBytes := w1 }
            ⟨c1, st.out ++ headerBlock r t.fieldAlignment t.newLine⟩ (by simpa using hfmt)
          simp only [h1]
          simp only [h2]
          refine ⟨trivial, ?_⟩
          simp [expectedOutput, hnames, hH, String.append_assoc]
      · have hH2 : t.hasHeaderRecord = false := by
          revert hH; cases t.hasHeaderRecord <;> simp
        rw [if_neg hH]
        obtain ⟨w, c, h⟩ := runDataRows_perfect records t st hfmt
        simp only [h]
        exact ⟨trivial, by simp [expectedOutput, hnames, hH2]⟩
    · rw [if_neg hnames]
      obtain ⟨w1, c1, h1⟩ := writeHeaderRecord_perfect t st t.fieldNames
      simp only [h1]
      obtain ⟨w2, c2, h2⟩ := runDataRows_perfect
        (if t.hasHeaderRecord = true then records.drop 1 else records)
        { t with wBytes := w1 }
        ⟨c1, st.out ++ headerBlock t.fieldNames t.fieldAlignment t.newLine⟩
        (by simpa using hfmt)
      simp only [h2]
      refine ⟨trivial, ?_⟩
      simp [expectedOutput, hnames, String.append_assoc]

end Csv2md

namespace Csv2md

/-- C3 counterexample: the spec's own example input — data row
`,Focus,Sedan,2015` with no header record and no format schema — is
emitted with the empty first cell rendered as the empty string, not as a
single space: the loop body of `writeRecord` has no empty-field
substitution. -/
theorem empty_field_not_rendered_as_space :
    (MDTable perfectSink [Except.ok ["", "Focus", "Sedan", "2015"]] tNoHeader st0).st.out
      = "|Focus|Sedan|2015  \n" ∧
    (MDTable perfectSink [Except.ok ["", "Focus", "Sedan", "2015"]] tNoHeader st0).st.out
      ≠ " |Focus|Sedan|2015  \n" := by decide

/-- C3 (amended): a data record is emitted verbatim — with no style
schema and a fully-accepting sink, the bytes written for a record are
exactly its fields (empty fields included, unchanged) joined by `|`,
terminated by the newline sequence; no space is substituted for an empty
field. -/
theorem writeRecord_fields_verbatim (t : Transmogrifier) (st : SinkState)
    (fields : List String) (h : t.fieldFmt = []) :
    (writeRecord perfectSink t st fields).res = Outcome.ok ∧
    (writeRecord perfectSink t st fields).st.out
      = st.out ++ (joinPipes fields ++ t.newLine) := by
  obtain ⟨w, c, hw⟩ := writeRecord_perfect_nofmt t st fields h
  rw [hw]
  exact ⟨rfl, rfl⟩

/-- C3 witness: the amended theorem applied to the spec's example row. -/
theorem writeRecord_fields_verbatim_witness :
    (writeRecord perfectSink NewTransmogrifier st0 ["", "Focus", "Sedan", "2015"]).res
      = Outcome.ok ∧
    (writeRecord perfectSink NewTransmogrifier st0 ["", "Focus", "Sedan", "2015"]).st.out
      = st0.out ++ (joinPipes ["", "Focus", "Sedan", "2015"] ++ NewTransmogrifier.newLine) :=
  writeRecord_fields_verbatim NewTransmogrifier st0 ["", "Focus", "Sedan", "2015"] rfl

/-- C7 counterexample: with an alignment schema set through
`SetFieldAlignment` while the name schema stays empty, the first record
is promoted to the header block with the alignment separator row `:--`,
not the all-`---` separator row the claim states. -/
theorem promoted_header_keeps_alignment_separator :
    (MDTable perfectSink [Except.ok ["a"]] tAlignOnly st0).st.out = "a  \n:--  \n" ∧
    (MDTable perfectSink [Except.ok ["a"]] tAlignOnly st0).st.out ≠ "a  \n---  \n" := by
  decide

/-- C7 witness: the amended theorem applied to the spec §8 example —
header record promoted, all-`---` separator (no alignment schema), two
data rows. -/
theorem mdtable_emission_witness :
    (MDTable perfectSink (carRecords.map Except.ok) NewTransmogrifier st0).res
      = Outcome.ok ∧
    (MDTable perfectSink (carRecords.map Except.ok) NewTransmogrifier st0).st.out
      = "Manufacturer|Model|Type|Year  \n---|---|---|---  \nFord|Focus|Sedan|2015  \nChevy|Malibu|Sedan|2015  \n" := by
  have h := (mdtable_emission NewTransmogrifier st0 carRecords).2 rfl
  exact ⟨h.1, h.2.trans (by decide)⟩

end Csv2md

namespace Csv2md

/- ### Internal lemmas: the style lookup of `writeRecord` -/

theorem writeRecordGo_oob (endIdx : Nat) (fields : List String) :
    ∀ (i : Nat) (t : Transmogrifier) (st : SinkState),
      i ≤ t.fieldFmt.length → t.fieldFmt.length < i + fields.length →
      (writeRecordGo perfectSink true endIdx fields i t st).res
        = Outcome.panicked "index out of range" := by
  induction fields with
  | nil =>
    intro i t st h1 h2
    simp only [List.length_nil] at h2
    omega
  | cons f rest ih =>
    intro i t st h1 h2
    rcases Nat.lt_or_ge i t.fieldFmt.length with hi | hi
    · have hfv : t.fieldFmt[i]? = some t.fieldFmt[i] := List.getElem?_eq_getElem hi
      simp only [writeRecordGo, hfv, doWrite_perfect, if_true]
      refine ih (i + 1) _ _ (by simpa using hi) ?_
      simp only [List.length_cons] at h2
      simpa using (by omega : t.fieldFmt.length < i + 1 + rest.length)
    · have hnone : t.fieldFmt[i]? = none := List.getElem?_eq_none hi
      simp [writeRecordGo, hnone]

theorem writeRecordGo_nopanic_false (sk : Sink) (endIdx : Nat) (fields : List String) :
    ∀ (i : Nat) (t : Transmogrifier) (st : SinkState) (msg : String),
      (writeRecordGo sk false endIdx fields i t st).res ≠ Outcome.panicked msg := by
  induction fields with
  | nil =>
    intro i t st msg
    simp only [writeRecordGo, doWrite_eq]
    rcases hbe : sk.behave st.calls t.newLine with ⟨n, e⟩
    cases e <;> simp
  | cons f rest ih =>
    intro i t st msg
    simp only [writeRecordGo, Bool.false_eq_true, if_false, doWrite_eq]
    rcases hbe : sk.behave st.calls (if i < endIdx then f ++ "|" else f) with ⟨n, e⟩
    cases e with
    | none => dsimp only; exact ih (i + 1) _ _ msg
    | some e => simp

theorem writeRecordGo_nopanic_true (sk : Sink) (endIdx : Nat) (fields : List String) :
    ∀ (i : Nat) (t : Transmogrifier) (st : SinkState),
      i + fields.length ≤ t.fieldFmt.length →
      ∀ msg, (writeRecordGo sk true endIdx fields i t st).res ≠ Outcome.panicked msg := by
  induction fields with
  | nil =>
    intro i t st _ msg
    simp only [writeRecordGo, doWrite_eq]
    rcases hbe : sk.behave st.calls t.newLine with ⟨n, e⟩
    cases e <;> simp
  | cons f rest ih =>
    intro i t st h msg
    have hi : i < t.fieldFmt.length := by
      simp only [List.length_cons] at h; omega
    have hfv : t.fieldFmt[i]? = some t.fieldFmt[i] := List.getElem?_eq_getElem hi
    simp only [writeRecordGo, hfv, if_true, doWrite_eq]
    rcases hbe : sk.behave st.calls
        (if i < endIdx then t.fieldFmt[i] ++ f ++ t.fieldFmt[i] ++ "|"
         else t.fieldFmt[i] ++ f ++ t.fieldFmt[i]) with ⟨n, e⟩
    cases e with
    | none =>
      dsimp only
      refine ih (i + 1) _ _ ?_ msg
      simp only [List.length_cons] at h
      simpa using (by omega : i + 1 + rest.length ≤ t.fieldFmt.length)
    | some e => simp

end Csv2md

namespace Csv2md

/-- C10: emitting a data row is total exactly under the claimed
precondition.  First conjunct: with a non-empty style array shorter than
the record, `writeRecord` (run against a sink that accepts every write,
so that no earlier error masks the lookup) reaches the out-of-range
style access — the `panicked` branch of the embedding, a runtime panic
in Go.  Second conjunct: for every sink, when the style array is empty
or at least as long as the record, no run of `writeRecord` ever reaches
the out-of-range branch. -/
theorem writeRecord_style_bounds (t : Transmogrifier) (st : SinkState)
    (fields : List String) :
    (t.fieldFmt ≠ [] → t.fieldFmt.length < fields.length →
      (writeRecord perfectSink t st fields).res
        = Outcome.panicked "index out of range") ∧
    (∀ sk : Sink, t.fieldFmt = [] ∨ fields.length ≤ t.fieldFmt.length →
      ∀ msg, (writeRecord sk t st fields).res ≠ Outcome.panicked msg) := by
  constructor
  · intro hne hlt
    have hfmt : decide (0 < t.fieldFmt.length) = true := by
      simp [List.length_pos.mpr hne]
    rw [writeRecord, hfmt]
    exact writeRecordGo_oob (fields.length - 1) fields 0 t st (by omega) (by omega)
  · intro sk hle msg
    rcases hle with hnil | hle
    · have hfmt : decide (0 < t.fieldFmt.length) = false := by simp [hnil]
      rw [writeRecord, hfmt]
      exact writeRecordGo_nopanic_false sk (fields.length - 1) fields 0 t st msg
    · cases hd : decide (0 < t.fieldFmt.length) with
      | false =>
        rw [writeRecord, hd]
        exact writeRecordGo_nopanic_false sk (fields.length - 1) fields 0 t st msg
      | true =>
        rw [writeRecord, hd]
        exact writeRecordGo_nopanic_true sk (fields.length - 1) fields 0 t st
          (by omega) msg

/-- C10 witness: a one-entry style array with a two-field record panics;
the same record with a two-entry style array, and the style-free
configuration, never reach the out-of-range branch. -/
theorem writeRecord_style_bounds_witness :
    (writeRecord perfectSink tOneStyle st0 ["a", "b"]).res
      = Outcome.panicked "index out of range" ∧
    (∀ msg, (writeRecord perfectSink tNoHeader st0 ["a", "b"]).res
      ≠ Outcome.panicked msg) :=
  ⟨(writeRecord_style_bounds tOneStyle st0 ["a", "b"]).1 (by decide) (by decide),
   fun msg =>
    (writeRecord_style_bounds tNoHeader st0 ["a", "b"]).2 perfectSink (Or.inl rfl) msg⟩

end Csv2md
